import Mathlib

/-!
Verification of the account-state layer of the DEX-V4 program
(src/program/src/state.rs): the user-account order slab operations,
fee-tier resolution, and user-account header serialization.

Modelling conventions: byte buffers are lists of natural numbers (each
below 256); machine integers are natural numbers, with truncation made
explicit where the source truncates. Rust operations that can panic
(out-of-range slice indexing) are modelled with an explicit panic
outcome; fallible operations return an error outcome.
-/

set_option maxRecDepth 16000

namespace DexV4

/-- Outcome of a Rust operation: success, a typed recoverable error, or a
panic (an out-of-range slice index aborts execution in the source). -/
inductive Res (ε α : Type) where
  | ok : α → Res ε α
  | err : ε → Res ε α
  | panic : Res ε α
  deriving DecidableEq

/-- Little-endian encoding of a natural number into `w` bytes, as done by
the Rust `to_le_bytes` conversions and the borsh integer encodings. -/
def leBytes : Nat → Nat → List Nat
  | 0, _ => []
  | w + 1, x => x % 256 :: leBytes w (x / 256)

/-- Little-endian read of `w` bytes starting at byte offset `off`, as done
by the Rust `from_le_bytes` conversions.  Out-of-range bytes read as 0
here, but every use below guards the range explicitly, mirroring the
source's slice-bound checks. -/
def readLe (data : List Nat) : Nat → Nat → Nat
  | _, 0 => 0
  | off, w + 1 => data.getD off 0 + 256 * readLe data (off + 1) w

/-- Overwrite of the byte range `[off, off + bs.length)` of a buffer, as
done by the Rust `copy_from_slice` into a subslice. -/
def writeBytes (data : List Nat) (off : Nat) (bs : List Nat) : List Nat :=
  data.take off ++ bs ++ data.drop (off + bs.length)

/-- Wellformedness of a byte buffer: every element is a byte value. -/
def byteVals (data : List Nat) : Prop := ∀ b ∈ data, b < 256

instance (data : List Nat) : Decidable (byteVals data) := by
  unfold byteVals; infer_instance

/-- Account type discriminant (state.rs, AccountTag). -/
inductive AccountTag where
  | Uninitialized
  | DexState
  | UserAccount
  deriving DecidableEq

/-- Typed errors raised by the order-slab operations of state.rs; the
variants are those of the crate's DexError that state.rs uses. -/
inductive DexError where
  | InvalidOrderIndex
  | OrderNotFound
  | UserAccountFull
  deriving DecidableEq

/-- Errors of the host program interface used by this layer. -/
inductive ProgramError where
  | InvalidAccountData
  deriving DecidableEq

/-- Header of a user account (state.rs, UserAccountHeader).  Pubkeys are
modelled as naturals below 2^256 (32 raw bytes); the u64 fields as
naturals below 2^64; number_of_orders (u32) below 2^32. -/
structure UserAccountHeader where
  tag : AccountTag
  market : Nat
  owner : Nat
  base_token_free : Nat
  base_token_locked : Nat
  quote_token_free : Nat
  quote_token_locked : Nat
  accumulated_rebates : Nat
  number_of_orders : Nat
  deriving DecidableEq

/-- Serialized length of the header (state.rs, Pack::LEN = 109). -/
def UserAccountHeader.LEN : Nat := 109

/-- Representation invariant of a header value: every field fits the
machine-integer width it has in the source. -/
def validHeader (h : UserAccountHeader) : Prop :=
  h.market < 2 ^ 256 ∧ h.owner < 2 ^ 256 ∧
  h.base_token_free < 2 ^ 64 ∧ h.base_token_locked < 2 ^ 64 ∧
  h.quote_token_free < 2 ^ 64 ∧ h.quote_token_locked < 2 ^ 64 ∧
  h.accumulated_rebates < 2 ^ 64 ∧ h.number_of_orders < 2 ^ 32

instance (h : UserAccountHeader) : Decidable (validHeader h) := by
  unfold validHeader; infer_instance

/-- User account handle (state.rs, UserAccount): the parsed header plus
the backing byte buffer. -/
structure UserAccount where
  header : UserAccountHeader
  data : List Nat
  deriving DecidableEq

/-- Value held by slot `k` of the order slab: the 16-byte little-endian
integer at byte offset LEN + k * 16 of the backing buffer. -/
def UserAccount.slotVal (a : UserAccount) (k : Nat) : Nat :=
  readLe a.data (UserAccountHeader.LEN + k * 16) 16

/-- Model of UserAccount::read_order (state.rs lines 157-165): an index at
or beyond number_of_orders is rejected with InvalidOrderIndex; otherwise
16 bytes at offset LEN + index * 16 are read, the slice index panicking
when that range exceeds the buffer. -/
def UserAccount.read_order (a : UserAccount) (order_index : Nat) :
    Res DexError Nat :=
  if order_index ≥ a.header.number_of_orders then .err .InvalidOrderIndex
  else
    let offset := UserAccountHeader.LEN + order_index * 16
    if offset + 16 ≤ a.data.length then .ok (readLe a.data offset 16)
    else .panic

/-- Model of UserAccount::remove_order (state.rs lines 167-178): an index
at or beyond number_of_orders is rejected with InvalidOrderIndex; when the
index is not the last occupied slot the last order is read and copied into
the index's slot (the copy panicking when the destination range exceeds
the buffer); finally number_of_orders is decremented. -/
def UserAccount.remove_order (a : UserAccount) (order_index : Nat) :
    Res DexError UserAccount :=
  if order_index ≥ a.header.number_of_orders then .err .InvalidOrderIndex
  else if a.header.number_of_orders - order_index ≠ 1 then
    match a.read_order (a.header.number_of_orders - 1) with
    | .ok last_order =>
      let offset := UserAccountHeader.LEN + order_index * 16
      if offset + 16 ≤ a.data.length then
        .ok { header := { a.header with
                          number_of_orders := a.header.number_of_orders - 1 },
              data := writeBytes a.data offset (leBytes 16 last_order) }
      else .panic
    | .err e => .err e
    | .panic => .panic
  else
    .ok { a with header := { a.header with
                             number_of_orders := a.header.number_of_orders - 1 } }

/-- Model of UserAccount::add_order (state.rs lines 180-189): get_mut on
the 16-byte range at slot number_of_orders yields UserAccountFull when the
range exceeds the buffer; otherwise the order id is written there and
number_of_orders is incremented. -/
def UserAccount.add_order (a : UserAccount) (order : Nat) :
    Res DexError UserAccount :=
  let offset := UserAccountHeader.LEN + a.header.number_of_orders * 16
  if offset + 16 ≤ a.data.length then
    .ok { header := { a.header with
                      number_of_orders := a.header.number_of_orders + 1 },
          data := writeBytes a.data offset (leBytes 16 order) }
  else .err .UserAccountFull

/-- Scan loop of UserAccount::find_order_index (state.rs lines 191-201):
slot `k` onward with `rem` slots remaining; each slot read panics when its
range exceeds the buffer (the scan is lazy, so slots after the first match
are not read), and the first slot holding order_id wins. -/
def findFrom (data : List Nat) (order_id : Nat) : Nat → Nat → Res DexError Nat
  | _, 0 => .err .OrderNotFound
  | k, rem + 1 =>
    let offset := UserAccountHeader.LEN + k * 16
    if offset + 16 ≤ data.length then
      if readLe data offset 16 = order_id then .ok k
      else findFrom data order_id (k + 1) rem
    else .panic

/-- Model of UserAccount::find_order_index (state.rs lines 191-201):
linear scan of the dense prefix of number_of_orders slots. -/
def UserAccount.find_order_index (a : UserAccount) (order_id : Nat) :
    Res DexError Nat :=
  findFrom a.data order_id 0 a.header.number_of_orders

/-- Fee tiers (state.rs, FeeTier), ordered by increasing discount. -/
inductive FeeTier where
  | Base
  | Srm2
  | Srm3
  | Srm4
  | Srm5
  | Srm6
  | MSrm
  deriving DecidableEq

/-- Model of FeeTier::from_srm_and_msrm_balances (state.rs lines 224-235). -/
def FeeTier.from_srm_and_msrm_balances (srm_held msrm_held : Nat) : FeeTier :=
  let one_srm := 1000000
  if msrm_held ≥ 1 then .MSrm
  else if srm_held ≥ one_srm * 1000000 then .Srm6
  else if srm_held ≥ one_srm * 100000 then .Srm5
  else if srm_held ≥ one_srm * 10000 then .Srm4
  else if srm_held ≥ one_srm * 1000 then .Srm3
  else if srm_held ≥ one_srm * 100 then .Srm2
  else .Base

/-- Model of FeeTier::taker_rate (state.rs lines 254-264): 32.32
fixed-point rates produced by integer shifts and divisions. -/
def FeeTier.taker_rate : FeeTier → Nat
  | .Base => (22 <<< 32) / 10000
  | .Srm2 => (20 <<< 32) / 10000
  | .Srm3 => (18 <<< 32) / 10000
  | .Srm4 => (16 <<< 32) / 10000
  | .Srm5 => (14 <<< 32) / 10000
  | .Srm6 => (12 <<< 32) / 10000
  | .MSrm => (10 <<< 32) / 10000

/-- Modelled from the spec: fp32_mul of the crate utils module (not under
src).  Spec section 4.1: multiply(amount, rate) computes
floor(amount * rate / 2^32) through a widened 128-bit intermediate,
truncated back to 64 bits. -/
def fp32_mul (amount rate : Nat) : Nat :=
  (amount * rate / 2 ^ 32) % 2 ^ 64

/-- Model of FeeTier::taker_fee (state.rs lines 279-282). -/
def FeeTier.taker_fee (t : FeeTier) (pc_qty : Nat) : Nat :=
  fp32_mul pc_qty t.taker_rate

/-- Token account fields consumed by the fee-tier resolver, as produced by
the external spl_token unpack (spec section 6, consumed capability a). -/
structure TokenAccount where
  mint : Nat
  owner : Nat
  amount : Nat
  deriving DecidableEq

/-- Modelled from the spec: the MSRM discount mint identity from the crate
processor module (not under src); only its distinctness from SRM_MINT
matters to the claims. -/
def MSRM_MINT : Nat := 1

/-- Modelled from the spec: the SRM discount mint identity from the crate
processor module (not under src). -/
def SRM_MINT : Nat := 2

/-- Failure kinds of FeeTier::get.  In the source both surface as the host
error InvalidArgument and are distinguished by the logged message (owner
check versus mint check); the spec names them OwnerMismatch and
UnrecognizedMint, which the model keeps distinct. -/
inductive TierError where
  | OwnerMismatch
  | UnrecognizedMint
  deriving DecidableEq

/-- Model of FeeTier::get (state.rs lines 237-252) applied to an
already-parsed token account: owner check first, then mint dispatch (the
MSRM arm precedes the SRM arm), then tier resolution from the matched
balance with the other balance zero. -/
def FeeTier.get (parsed_token_account : TokenAccount) (expected_owner : Nat) :
    Res TierError FeeTier :=
  if parsed_token_account.owner ≠ expected_owner then .err .OwnerMismatch
  else if parsed_token_account.mint = MSRM_MINT then
    .ok (FeeTier.from_srm_and_msrm_balances 0 parsed_token_account.amount)
  else if parsed_token_account.mint = SRM_MINT then
    .ok (FeeTier.from_srm_and_msrm_balances parsed_token_account.amount 0)
  else .err .UnrecognizedMint

/-- Borsh enum discriminant byte of an AccountTag. -/
def tagByte : AccountTag → Nat
  | .Uninitialized => 0
  | .DexState => 1
  | .UserAccount => 2

/-- Inverse of the borsh enum discriminant byte. -/
def tagOfByte : Nat → Option AccountTag
  | 0 => some .Uninitialized
  | 1 => some .DexState
  | 2 => some .UserAccount
  | _ => none

/-- Modelled from the spec: the borsh serialization of UserAccountHeader
(the derived BorshSerialize instance lives in an external crate),
following the byte-layout table of spec section 6: tag byte, market
(32 bytes), owner (32 bytes), the four balances and the rebate metric
(u64, 8 bytes each), number_of_orders (u32, 4 bytes), little-endian. -/
def UserAccountHeader.serializeBytes (h : UserAccountHeader) : List Nat :=
  tagByte h.tag :: (leBytes 32 h.market ++ (leBytes 32 h.owner ++
    (leBytes 8 h.base_token_free ++ (leBytes 8 h.base_token_locked ++
    (leBytes 8 h.quote_token_free ++ (leBytes 8 h.quote_token_locked ++
    (leBytes 8 h.accumulated_rebates ++ leBytes 4 h.number_of_orders)))))))

/-- Fixed-width little-endian field read of the borsh deserializer: fails
when fewer than `w` bytes remain. -/
def readN (w : Nat) (src : List Nat) : Option (Nat × List Nat) :=
  if w ≤ src.length then some (readLe src 0 w, src.drop w) else none

/-- Modelled from the spec: borsh deserialization of UserAccountHeader
(the derived BorshDeserialize instance lives in an external crate): the
fields are read in layout order, failing on truncated input or an invalid
tag byte. -/
def UserAccountHeader.deserializeBytes : List Nat → Option UserAccountHeader
  | [] => none
  | t :: r0 => do
    let tag ← tagOfByte t
    let (market, r1) ← readN 32 r0
    let (owner, r2) ← readN 32 r1
    let (btf, r3) ← readN 8 r2
    let (btl, r4) ← readN 8 r3
    let (qtf, r5) ← readN 8 r4
    let (qtl, r6) ← readN 8 r5
    let (ar, r7) ← readN 8 r6
    let (n, _r8) ← readN 4 r7
    pure ⟨tag, market, owner, btf, btl, qtf, qtl, ar, n⟩

/-- Model of UserAccountHeader::unpack: the host Pack wrapper first checks
the input length against LEN (modelled from the spec: fixed serialized
length of 109 bytes, wrong length failing with InvalidAccountData), then
unpack_from_slice (state.rs lines 123-125) maps any borsh deserialization
failure to InvalidAccountData. -/
def UserAccountHeader.unpack (src : List Nat) : Res ProgramError UserAccountHeader :=
  if src.length = UserAccountHeader.LEN then
    match UserAccountHeader.deserializeBytes src with
    | some h => .ok h
    | none => .err .InvalidAccountData
  else .err .InvalidAccountData

/-- Spec-side restatement of the tier thresholds, written from the spec's
words (section 4.2) for the refinement claim about resolve. -/
def resolveSpec (srm_balance msrm_balance : Nat) : FeeTier :=
  if msrm_balance ≥ 1 then .MSrm
  else if srm_balance ≥ 10 ^ 6 * 10 ^ 6 then .Srm6
  else if srm_balance ≥ 10 ^ 6 * 10 ^ 5 then .Srm5
  else if srm_balance ≥ 10 ^ 6 * 10 ^ 4 then .Srm4
  else if srm_balance ≥ 10 ^ 6 * 10 ^ 3 then .Srm3
  else if srm_balance ≥ 10 ^ 6 * 10 ^ 2 then .Srm2
  else .Base

/-- Frame relation between two headers: all fields other than
number_of_orders agree. -/
def headerFrame (h h' : UserAccountHeader) : Prop :=
  h'.tag = h.tag ∧ h'.market = h.market ∧ h'.owner = h.owner ∧
  h'.base_token_free = h.base_token_free ∧
  h'.base_token_locked = h.base_token_locked ∧
  h'.quote_token_free = h.quote_token_free ∧
  h'.quote_token_locked = h.quote_token_locked ∧
  h'.accumulated_rebates = h.accumulated_rebates

instance (h h' : UserAccountHeader) : Decidable (headerFrame h h') := by
  unfold headerFrame; infer_instance

/-- Concrete two-order account (slots hold 7 and 9, buffer exactly full)
used by witnesses. -/
def wAcct : UserAccount :=
  ⟨⟨.UserAccount, 1, 2, 3, 4, 5, 6, 7, 2⟩,
    List.replicate 109 0 ++ (leBytes 16 7 ++ leBytes 16 9)⟩

/-- Concrete empty account whose buffer has room for exactly one order. -/
def wEmpty : UserAccount :=
  ⟨⟨.UserAccount, 0, 0, 0, 0, 0, 0, 0, 0⟩, List.replicate 125 0⟩

/-- Result of adding order id 5 to wEmpty. -/
def wEmptyAdd : UserAccount :=
  ⟨⟨.UserAccount, 0, 0, 0, 0, 0, 0, 0, 1⟩,
    List.replicate 109 0 ++ leBytes 16 5⟩

/-- Concrete account holding one order with id 5 and room for one more. -/
def dupAcct : UserAccount :=
  ⟨⟨.UserAccount, 0, 0, 0, 0, 0, 0, 0, 1⟩,
    List.replicate 109 0 ++ (leBytes 16 5 ++ List.replicate 16 0)⟩

/-- Result of adding the duplicate order id 5 to dupAcct. -/
def dupAcctAdd : UserAccount :=
  ⟨⟨.UserAccount, 0, 0, 0, 0, 0, 0, 0, 2⟩,
    List.replicate 109 0 ++ (leBytes 16 5 ++ leBytes 16 5)⟩

/-- Result of removing index 0 from wAcct by swap-removal: the old last
slot's value 9 is copied into slot 0. -/
def wAcctRem : UserAccount :=
  ⟨⟨.UserAccount, 1, 2, 3, 4, 5, 6, 7, 1⟩,
    List.replicate 109 0 ++ (leBytes 16 9 ++ leBytes 16 9)⟩

theorem leBytes_length (w x : Nat) : (leBytes w x).length = w := by
  induction w generalizing x with
  | zero => rfl
  | succ w ih => simp [leBytes, ih]

theorem leBytes_getD (w x k : Nat) (h : k < w) :
    (leBytes w x).getD k 0 = x / 256 ^ k % 256 := by
  induction w generalizing x k with
  | zero => omega
  | succ w ih =>
    cases k with
    | zero => simp [leBytes]
    | succ k =>
      have hk : k < w := by omega
      have := ih (x / 256) k hk
      simp only [leBytes, List.getD_cons_succ, this]
      rw [Nat.div_div_eq_div_mul, pow_succ']

theorem leBytes_lt (w x : Nat) : ∀ b ∈ leBytes w x, b < 256 := by
  induction w generalizing x with
  | zero => simp [leBytes]
  | succ w ih =>
    intro b hb
    simp only [leBytes, List.mem_cons] at hb
    rcases hb with h | h
    · omega
    · exact ih (x / 256) b h

theorem byteVals_getD {data : List Nat} (h : byteVals data) (m : Nat) :
    data.getD m 0 < 256 := by
  rcases Nat.lt_or_ge m data.length with hm | hm
  · rw [List.getD_eq_getElem _ _ hm]
    exact h _ (List.getElem_mem hm)
  · rw [List.getD_eq_default _ _ hm]; omega

theorem readLe_congr {d1 d2 : List Nat} {o1 o2 : Nat} (w : Nat)
    (h : ∀ k, k < w → d1.getD (o1 + k) 0 = d2.getD (o2 + k) 0) :
    readLe d1 o1 w = readLe d2 o2 w := by
  induction w generalizing o1 o2 with
  | zero => rfl
  | succ w ih =>
    simp only [readLe]
    have h0 := h 0 (by omega)
    simp only [Nat.add_zero] at h0
    rw [h0, ih]
    intro k hk
    have e1 : o1 + 1 + k = o1 + (k + 1) := by omega
    have e2 : o2 + 1 + k = o2 + (k + 1) := by omega
    rw [e1, e2]
    exact h (k + 1) (by omega)

theorem readLe_of_bytes (w : Nat) {d : List Nat} {o x : Nat}
    (h : ∀ k, k < w → d.getD (o + k) 0 = x / 256 ^ k % 256) :
    readLe d o w = x % 256 ^ w := by
  induction w generalizing o x with
  | zero => simp [readLe, Nat.mod_one]
  | succ w ih =>
    have h0 := h 0 (by omega)
    simp only [Nat.add_zero, pow_zero, Nat.div_one] at h0
    have ht : ∀ k, k < w → d.getD (o + 1 + k) 0 = (x / 256) / 256 ^ k % 256 := by
      intro k hk
      have e1 : o + 1 + k = o + (k + 1) := by omega
      rw [e1, Nat.div_div_eq_div_mul, ← pow_succ']
      exact h (k + 1) (by omega)
    simp only [readLe, h0, ih ht]
    rw [pow_succ', Nat.mod_mul]

theorem readLe_lt (w : Nat) {d : List Nat} {o : Nat}
    (h : ∀ k, k < w → d.getD (o + k) 0 < 256) :
    readLe d o w < 256 ^ w := by
  induction w generalizing o with
  | zero => simp [readLe]
  | succ w ih =>
    have h0 := h 0 (by omega)
    simp only [Nat.add_zero] at h0
    have ht : readLe d (o + 1) w < 256 ^ w := by
      apply ih
      intro k hk
      have e1 : o + 1 + k = o + (k + 1) := by omega
      rw [e1]
      exact h (k + 1) (by omega)
    simp only [readLe, pow_succ']
    omega

theorem writeBytes_length {d : List Nat} {o : Nat} {bs : List Nat}
    (h : o + bs.length ≤ d.length) :
    (writeBytes d o bs).length = d.length := by
  simp only [writeBytes, List.length_append, List.length_take, List.length_drop]
  omega

theorem writeBytes_getElem? {d : List Nat} {o : Nat} {bs : List Nat} (m : Nat)
    (h : o + bs.length ≤ d.length) :
    (writeBytes d o bs)[m]? =
      if o ≤ m ∧ m < o + bs.length then bs[m - o]? else d[m]? := by
  have hlt : (d.take o).length = o := by
    rw [List.length_take]; omega
  have e : writeBytes d o bs = d.take o ++ (bs ++ d.drop (o + bs.length)) := by
    simp [writeBytes, List.append_assoc]
  rw [e, List.getElem?_append, hlt]
  by_cases h1 : m < o
  · rw [if_pos h1, List.getElem?_take, if_pos h1, if_neg (by omega)]
  · rw [if_neg h1, List.getElem?_append]
    by_cases h2 : m - o < bs.length
    · rw [if_pos h2, if_pos (by omega)]
    · rw [if_neg h2, List.getElem?_drop, if_neg (by omega)]
      congr 1
      omega

theorem writeBytes_getD {d : List Nat} {o : Nat} {bs : List Nat} (m : Nat)
    (h : o + bs.length ≤ d.length) :
    (writeBytes d o bs).getD m 0 =
      if o ≤ m ∧ m < o + bs.length then bs.getD (m - o) 0 else d.getD m 0 := by
  simp only [List.getD_eq_getElem?_getD, writeBytes_getElem? m h]
  by_cases hc : o ≤ m ∧ m < o + bs.length <;> simp [hc]

theorem getD_append_left {l1 l2 : List Nat} {n : Nat} (h : n < l1.length) :
    (l1 ++ l2).getD n 0 = l1.getD n 0 := by
  simp only [List.getD_eq_getElem?_getD, List.getElem?_append, if_pos h]

theorem readLe_writeBytes_disjoint {d : List Nat} {o1 o2 w : Nat} {bs : List Nat}
    (h : o1 + bs.length ≤ d.length)
    (hdisj : o2 + w ≤ o1 ∨ o1 + bs.length ≤ o2) :
    readLe (writeBytes d o1 bs) o2 w = readLe d o2 w := by
  apply readLe_congr
  intro k hk
  rw [writeBytes_getD _ h, if_neg (by omega)]

theorem readLe_writeBytes_self {d : List Nat} {o x w : Nat}
    (h : o + w ≤ d.length) :
    readLe (writeBytes d o (leBytes w x)) o w = x % 256 ^ w := by
  have hlen : (leBytes w x).length = w := leBytes_length w x
  apply readLe_of_bytes
  intro k hk
  rw [writeBytes_getD _ (by omega), if_pos (by omega)]
  rw [Nat.add_sub_cancel_left, leBytes_getD _ _ _ hk]

theorem slotVal_lt {a : UserAccount} (h : byteVals a.data) (k : Nat) :
    a.slotVal k < 256 ^ 16 :=
  readLe_lt 16 fun _ _ => byteVals_getD h _

theorem read_order_ok {a : UserAccount} {i : Nat}
    (hi : i < a.header.number_of_orders)
    (hb : UserAccountHeader.LEN + i * 16 + 16 ≤ a.data.length) :
    a.read_order i = .ok (a.slotVal i) := by
  simp only [UserAccount.read_order, UserAccount.slotVal]
  rw [if_neg (by omega), if_pos hb]

theorem tagOfByte_tagByte (t : AccountTag) : tagOfByte (tagByte t) = some t := by
  cases t <;> rfl

theorem readN_leBytes {w x : Nat} (hx : x < 256 ^ w) (rest : List Nat) :
    readN w (leBytes w x ++ rest) = some (x, rest) := by
  have hlen : (leBytes w x ++ rest).length = w + rest.length := by
    rw [List.length_append, leBytes_length]
  unfold readN
  rw [if_pos (by omega)]
  have hread : readLe (leBytes w x ++ rest) 0 w = x := by
    have := readLe_of_bytes (d := leBytes w x ++ rest) (o := 0) (x := x) w ?_
    · rw [this, Nat.mod_eq_of_lt hx]
    · intro k hk
      rw [Nat.zero_add, getD_append_left (by rw [leBytes_length]; omega),
        leBytes_getD _ _ _ hk]
  have hdrop : (leBytes w x ++ rest).drop w = rest := by
    have := List.drop_left (leBytes w x) rest
    rwa [leBytes_length] at this
  rw [hread, hdrop]

theorem readN_leBytes_nil {w x : Nat} (hx : x < 256 ^ w) :
    readN w (leBytes w x) = some (x, []) := by
  have := readN_leBytes hx []
  simpa using this

theorem findFrom_found {d : List Nat} {id : Nat} (t0 : Nat) :
    ∀ k rem, t0 < rem →
    (∀ t, t ≤ t0 → UserAccountHeader.LEN + (k + t) * 16 + 16 ≤ d.length) →
    readLe d (UserAccountHeader.LEN + (k + t0) * 16) 16 = id →
    (∀ t, t < t0 → readLe d (UserAccountHeader.LEN + (k + t) * 16) 16 ≠ id) →
    findFrom d id k rem = .ok (k + t0) := by
  induction t0 with
  | zero =>
    intro k rem hrem hbound hmatch _
    cases rem with
    | zero => omega
    | succ rem =>
      simp only [findFrom]
      rw [if_pos (by have := hbound 0 (by omega); simpa using this)]
      rw [if_pos (by simpa using hmatch)]
      simp
  | succ t0 ih =>
    intro k rem hrem hbound hmatch hprev
    cases rem with
    | zero => omega
    | succ rem =>
      have hbound' : ∀ t, t ≤ t0 →
          UserAccountHeader.LEN + (k + 1 + t) * 16 + 16 ≤ d.length := by
        intro t ht
        have := hbound (t + 1) (by omega)
        rwa [show k + (t + 1) = k + 1 + t by omega] at this
      have hprev' : ∀ t, t < t0 →
          readLe d (UserAccountHeader.LEN + (k + 1 + t) * 16) 16 ≠ id := by
        intro t ht
        have := hprev (t + 1) (by omega)
        rwa [show k + (t + 1) = k + 1 + t by omega] at this
      have hmatch' : readLe d (UserAccountHeader.LEN + (k + 1 + t0) * 16) 16 = id := by
        rwa [show k + (t0 + 1) = k + 1 + t0 by omega] at hmatch
      have hrec := ih (k + 1) rem (by omega) hbound' hmatch' hprev'
      simp only [findFrom]
      rw [if_pos (by have := hbound 0 (by omega); simpa using this)]
      rw [if_neg (by have := hprev 0 (by omega); simpa using this)]
      rw [show k + (t0 + 1) = k + 1 + t0 by omega]
      exact hrec

theorem findFrom_not_found {d : List Nat} {id : Nat} :
    ∀ rem k,
    (∀ t, t < rem → UserAccountHeader.LEN + (k + t) * 16 + 16 ≤ d.length) →
    (∀ t, t < rem → readLe d (UserAccountHeader.LEN + (k + t) * 16) 16 ≠ id) →
    findFrom d id k rem = .err .OrderNotFound := by
  intro rem
  induction rem with
  | zero => intro k _ _; rfl
  | succ rem ih =>
    intro k hbound hne
    simp only [findFrom]
    rw [if_pos (by have := hbound 0 (by omega); simpa using this)]
    rw [if_neg (by have := hne 0 (by omega); simpa using this)]
    apply ih
    · intro t ht
      have := hbound (t + 1) (by omega)
      rwa [show k + (t + 1) = k + 1 + t by omega] at this
    · intro t ht
      have := hne (t + 1) (by omega)
      rwa [show k + (t + 1) = k + 1 + t by omega] at this

/-- C2 counterexample: resolving (srm_held = 150000000, msrm_held = 0)
does give tier Srm2 and the taker rate of Srm2 is the integer-division
value (20 <<< 32) / 10000 = 8589934, but the taker fee on 1000000 is
fp32_mul 1000000 8589934 = 1999, not the 2000 the claim states: the floor
in the rate's division loses the fraction 0.592, so the fee falls one unit
short of exact 20 basis points. -/
theorem takerFeeSrm2Cex :
    FeeTier.from_srm_and_msrm_balances 150000000 0 = .Srm2 ∧
    FeeTier.taker_rate .Srm2 = (20 <<< 32) / 10000 ∧
    FeeTier.taker_fee .Srm2 1000000 = fp32_mul 1000000 ((20 <<< 32) / 10000) ∧
    FeeTier.taker_fee .Srm2 1000000 ≠ 2000 := by
  refine ⟨by decide, rfl, rfl, by decide⟩

/-- C2 (amended): resolve(srm_held = 150000000, msrm_held = 0) returns
tier Srm2; takerRate(Srm2) equals the 32.32 fixed-point value
(20 <<< 32) / 10000 under integer division; and takerFee(Srm2, 1000000) =
multiply(1000000, (20 <<< 32) / 10000) = 1999, one unit below exact 20
basis points of 1000000 because both divisions floor. -/
theorem takerFeeSrm2Value :
    FeeTier.from_srm_and_msrm_balances 150000000 0 = .Srm2 ∧
    FeeTier.taker_rate .Srm2 = (20 <<< 32) / 10000 ∧
    FeeTier.taker_fee .Srm2 1000000 = fp32_mul 1000000 ((20 <<< 32) / 10000) ∧
    FeeTier.taker_fee .Srm2 1000000 = 1999 := by
  refine ⟨by decide, rfl, rfl, by decide⟩

/-- C3: for all unsigned 64-bit balance pairs, from_srm_and_msrm_balances
matches the spec's threshold table: MSrm when msrm_balance is at least 1,
else Srm6 down to Srm2 at the thresholds 10^6 * 10^6 .. 10^6 * 10^2 with
the comparison being at-least (ties go to the higher tier), else Base. -/
theorem fromBalancesMatchesSpec (srm_balance msrm_balance : Nat)
    (hsrm : srm_balance < 2 ^ 64) (hmsrm : msrm_balance < 2 ^ 64) :
    FeeTier.from_srm_and_msrm_balances srm_balance msrm_balance =
      resolveSpec srm_balance msrm_balance := by
  unfold FeeTier.from_srm_and_msrm_balances resolveSpec
  norm_num

/-- C3 witness: the theorem applied at the concrete u64 balance pair
(150000000, 0). -/
theorem fromBalancesMatchesSpecWitness :
    (150000000 : Nat) < 2 ^ 64 ∧ (0 : Nat) < 2 ^ 64 ∧
    FeeTier.from_srm_and_msrm_balances 150000000 0 = resolveSpec 150000000 0 :=
  ⟨by decide, by decide,
    fromBalancesMatchesSpec 150000000 0 (by decide) (by decide)⟩

/-- C4: when the backing buffer has no room for one more 16-byte slot at
position number_of_orders, add_order fails with UserAccountFull; the
result carries no mutated state, so the header, and in particular
number_of_orders, is unchanged. -/
theorem addOrderFull (a : UserAccount) (order : Nat)
    (hfull : a.data.length <
      UserAccountHeader.LEN + a.header.number_of_orders * 16 + 16) :
    a.add_order order = .err .UserAccountFull := by
  simp only [UserAccount.add_order]
  rw [if_neg (by omega)]

/-- C4 witness: an account with number_of_orders = 1 whose buffer holds
only 125 bytes, one byte short of the 16 needed at slot 1. -/
theorem addOrderFullWitness :
    (125 : Nat) < UserAccountHeader.LEN + 1 * 16 + 16 ∧
    UserAccount.add_order
      ⟨⟨.UserAccount, 0, 0, 0, 0, 0, 0, 0, 1⟩, List.replicate 125 0⟩ 42 =
      .err .UserAccountFull :=
  ⟨by decide,
    addOrderFull ⟨⟨.UserAccount, 0, 0, 0, 0, 0, 0, 0, 1⟩, List.replicate 125 0⟩
      42 (by decide)⟩

/-- C5: for every index at or beyond number_of_orders (hence for every
index when number_of_orders = 0), remove_order fails with
InvalidOrderIndex before any mutation; the result carries no mutated
state, so the backing buffer and the header are unchanged. -/
theorem removeOrderInvalidIndex (a : UserAccount) (order_index : Nat)
    (hi : order_index ≥ a.header.number_of_orders) :
    a.remove_order order_index = .err .InvalidOrderIndex := by
  simp only [UserAccount.remove_order]
  rw [if_pos hi]

/-- C5 witness: removing index 0 from an account with number_of_orders = 0
fails with InvalidOrderIndex. -/
theorem removeOrderInvalidIndexWitness :
    (0 : Nat) ≥ 0 ∧
    UserAccount.remove_order
      ⟨⟨.UserAccount, 0, 0, 0, 0, 0, 0, 0, 0⟩, List.replicate 141 0⟩ 0 =
      .err .InvalidOrderIndex :=
  ⟨Nat.le_refl 0,
    removeOrderInvalidIndex
      ⟨⟨.UserAccount, 0, 0, 0, 0, 0, 0, 0, 0⟩, List.replicate 141 0⟩ 0
      (Nat.le_refl 0)⟩

/-- C10: read_order validates the index only against number_of_orders.
Under the consistency precondition that the buffer holds at least
LEN + 16 * number_of_orders bytes, every index below number_of_orders is
an in-bounds 16-byte access and the panic branch of the slice index is
unreachable.  The final conjunct shows that without that precondition a
valid index can still address bytes past the buffer's end: an account
claiming one order over a bare 109-byte buffer panics on read_order 0. -/
theorem readOrderInBounds (a : UserAccount) (order_index : Nat)
    (hcons : UserAccountHeader.LEN + 16 * a.header.number_of_orders ≤
      a.data.length)
    (hi : order_index < a.header.number_of_orders) :
    (UserAccountHeader.LEN + order_index * 16 + 16 ≤ a.data.length ∧
      a.read_order order_index = .ok (a.slotVal order_index)) ∧
    UserAccount.read_order
      ⟨⟨.UserAccount, 0, 0, 0, 0, 0, 0, 0, 1⟩, List.replicate 109 0⟩ 0 =
      .panic := by
  have hb : UserAccountHeader.LEN + order_index * 16 + 16 ≤ a.data.length := by
    omega
  exact ⟨⟨hb, read_order_ok hi hb⟩, by decide⟩

/-- C10 witness: the theorem applied to the consistent two-order account
wAcct at index 0. -/
theorem readOrderInBoundsWitness :
    UserAccountHeader.LEN + 16 * wAcct.header.number_of_orders ≤
      wAcct.data.length ∧
    0 < wAcct.header.number_of_orders ∧
    ((UserAccountHeader.LEN + 0 * 16 + 16 ≤ wAcct.data.length ∧
      wAcct.read_order 0 = .ok (wAcct.slotVal 0)) ∧
      UserAccount.read_order
        ⟨⟨.UserAccount, 0, 0, 0, 0, 0, 0, 0, 1⟩, List.replicate 109 0⟩ 0 =
        .panic) :=
  ⟨by decide, by decide, readOrderInBounds wAcct 0 (by decide) (by decide)⟩

/-- C8: FeeTier::get on a parsed token account fails with the owner
mismatch error whenever the account's owner differs from the expected
owner; otherwise fails with the unrecognized-mint error whenever the mint
is neither recognized discount mint; otherwise resolves the tier with the
balance read under the matched mint and the other balance zero; and a
tier is only ever returned when the owner matched and the mint was
recognized, so no error case defaults to a fee tier. -/
theorem feeTierGetSpec (t : TokenAccount) (expected_owner : Nat) :
    (t.owner ≠ expected_owner →
      FeeTier.get t expected_owner = .err .OwnerMismatch) ∧
    (t.owner = expected_owner → t.mint ≠ MSRM_MINT → t.mint ≠ SRM_MINT →
      FeeTier.get t expected_owner = .err .UnrecognizedMint) ∧
    (t.owner = expected_owner → t.mint = MSRM_MINT →
      FeeTier.get t expected_owner =
        .ok (FeeTier.from_srm_and_msrm_balances 0 t.amount)) ∧
    (t.owner = expected_owner → t.mint = SRM_MINT →
      FeeTier.get t expected_owner =
        .ok (FeeTier.from_srm_and_msrm_balances t.amount 0)) ∧
    (∀ tier, FeeTier.get t expected_owner = .ok tier →
      t.owner = expected_owner ∧ (t.mint = MSRM_MINT ∨ t.mint = SRM_MINT)) := by
  have hmm : SRM_MINT ≠ MSRM_MINT := by decide
  refine ⟨?_, ?_, ?_, ?_, ?_⟩
  · intro hne
    simp only [FeeTier.get]
    rw [if_pos hne]
  · intro heq hm1 hm2
    simp only [FeeTier.get]
    rw [if_neg (by simp [heq]), if_neg hm1, if_neg hm2]
  · intro heq hm
    simp only [FeeTier.get]
    rw [if_neg (by simp [heq]), if_pos hm]
  · intro heq hm
    simp only [FeeTier.get]
    rw [if_neg (by simp [heq]), if_neg (by rw [hm]; exact hmm), if_pos hm]
  · intro tier htier
    by_cases hown : t.owner = expected_owner
    · by_cases hm1 : t.mint = MSRM_MINT
      · exact ⟨hown, Or.inl hm1⟩
      · by_cases hm2 : t.mint = SRM_MINT
        · exact ⟨hown, Or.inr hm2⟩
        · simp only [FeeTier.get] at htier
          rw [if_neg (by simp [hown]), if_neg hm1, if_neg hm2] at htier
          cases htier
    · simp only [FeeTier.get] at htier
      rw [if_pos hown] at htier
      cases htier

/-- C8 witness: the theorem applied to an SRM-mint account with matching
owner, to an account with a foreign owner, and to an account with an
unrecognized mint. -/
theorem feeTierGetSpecWitness :
    FeeTier.get ⟨SRM_MINT, 7, 150000000⟩ 7 =
      .ok (FeeTier.from_srm_and_msrm_balances 150000000 0) ∧
    FeeTier.get ⟨SRM_MINT, 8, 150000000⟩ 7 = .err .OwnerMismatch ∧
    FeeTier.get ⟨9, 7, 150000000⟩ 7 = .err .UnrecognizedMint :=
  ⟨(feeTierGetSpec ⟨SRM_MINT, 7, 150000000⟩ 7).2.2.2.1 rfl rfl,
   (feeTierGetSpec ⟨SRM_MINT, 8, 150000000⟩ 7).1 (by decide),
   (feeTierGetSpec ⟨9, 7, 150000000⟩ 7).2.1 rfl (by decide) (by decide)⟩

/-- C1: on an account whose buffer consistently backs its
number_of_orders slots (byte values, length at least
LEN + 16 * number_of_orders), removing a valid index succeeds, decrements
number_of_orders by exactly one, and afterwards every surviving slot
reads the old slab under swap-removal: the old last slot's value sits at
the removed index (when the removed index was the last occupied slot no
slot is copied and the removed index is no longer a surviving slot), and
every other surviving slot is unchanged, so the slab stays dense. -/
theorem removeOrderSwap (a : UserAccount) (order_index : Nat)
    (hbytes : byteVals a.data)
    (hcons : UserAccountHeader.LEN + 16 * a.header.number_of_orders ≤
      a.data.length)
    (hi : order_index < a.header.number_of_orders) :
    ∃ a', a.remove_order order_index = .ok a' ∧
      a'.header.number_of_orders = a.header.number_of_orders - 1 ∧
      ∀ j, j < a.header.number_of_orders - 1 →
        a'.read_order j = .ok (if j = order_index
          then a.slotVal (a.header.number_of_orders - 1)
          else a.slotVal j) := by
  by_cases hlast : a.header.number_of_orders - order_index = 1
  · refine ⟨{ a with header := { a.header with
        number_of_orders := a.header.number_of_orders - 1 } }, ?_, rfl, ?_⟩
    · simp only [UserAccount.remove_order]
      rw [if_neg (by omega), if_neg (by omega)]
    · intro j hj
      have hb : UserAccountHeader.LEN + j * 16 + 16 ≤ a.data.length := by omega
      have e := read_order_ok
        (a := { a with header := { a.header with
          number_of_orders := a.header.number_of_orders - 1 } })
        (i := j) (by simpa using hj) hb
      rw [e, if_neg (by omega)]
      rfl
  · have hlt : order_index < a.header.number_of_orders - 1 := by omega
    have hblast : UserAccountHeader.LEN +
        (a.header.number_of_orders - 1) * 16 + 16 ≤ a.data.length := by omega
    have hread : a.read_order (a.header.number_of_orders - 1) =
        .ok (a.slotVal (a.header.number_of_orders - 1)) :=
      read_order_ok (by omega) hblast
    have hbdst : UserAccountHeader.LEN + order_index * 16 + 16 ≤
        a.data.length := by omega
    have hwlen : (writeBytes a.data (UserAccountHeader.LEN + order_index * 16)
        (leBytes 16 (a.slotVal (a.header.number_of_orders - 1)))).length =
        a.data.length :=
      writeBytes_length (by rw [leBytes_length]; omega)
    refine ⟨⟨{ a.header with number_of_orders := a.header.number_of_orders - 1 },
      writeBytes a.data (UserAccountHeader.LEN + order_index * 16)
        (leBytes 16 (a.slotVal (a.header.number_of_orders - 1)))⟩, ?_, rfl, ?_⟩
    · simp only [UserAccount.remove_order]
      rw [if_neg (by omega), if_pos hlast, hread]
      exact if_pos hbdst
    · intro j hj
      have hb' : UserAccountHeader.LEN + j * 16 + 16 ≤ a.data.length := by omega
      have e := read_order_ok
        (a := ⟨{ a.header with
            number_of_orders := a.header.number_of_orders - 1 },
          writeBytes a.data (UserAccountHeader.LEN + order_index * 16)
            (leBytes 16 (a.slotVal (a.header.number_of_orders - 1)))⟩)
        (i := j) (by simpa using hj) (by rw [hwlen]; exact hb')
      rw [e]
      refine congrArg Res.ok ?_
      simp only [UserAccount.slotVal]
      by_cases hji : j = order_index
      · subst hji
        rw [if_pos rfl, readLe_writeBytes_self hbdst]
        exact Nat.mod_eq_of_lt (slotVal_lt hbytes _)
      · rw [if_neg hji,
          readLe_writeBytes_disjoint (by rw [leBytes_length]; exact hbdst)
            (by rw [leBytes_length]; omega)]

/-- C1 witness: the theorem applied to the consistent two-order account
wAcct at index 0; the old last slot's value 9 moves to index 0. -/
theorem removeOrderSwapWitness :
    byteVals wAcct.data ∧
    UserAccountHeader.LEN + 16 * wAcct.header.number_of_orders ≤
      wAcct.data.length ∧
    0 < wAcct.header.number_of_orders ∧
    (∃ a', wAcct.remove_order 0 = .ok a' ∧
      a'.header.number_of_orders = wAcct.header.number_of_orders - 1 ∧
      ∀ j, j < wAcct.header.number_of_orders - 1 →
        a'.read_order j = .ok (if j = 0
          then wAcct.slotVal (wAcct.header.number_of_orders - 1)
          else wAcct.slotVal j)) :=
  ⟨by decide, by decide, by decide,
    removeOrderSwap wAcct 0 (by decide) (by decide) (by decide)⟩

/-- C7 counterexample: dupAcct already holds order id 5 at slot 0 and has
room for one more slot; add_order 5 succeeds (the source has no duplicate
check, and the state is reachable through the api by two add_order calls
with the same id), after which find_order_index 5 returns the lowest
matching index 0 and not the just-written slot number_of_orders - 1 = 1,
so the claim's first sentence fails at this input. -/
theorem addThenFindDuplicateCex :
    dupAcct.add_order 5 = .ok dupAcctAdd ∧
    dupAcctAdd.header.number_of_orders - 1 = 1 ∧
    dupAcctAdd.find_order_index 5 = .ok 0 ∧
    ¬ dupAcctAdd.find_order_index 5 = .ok 1 :=
  ⟨by decide, by decide, by decide, by decide⟩

/-- C7 (amended): a successful add_order(order) immediately followed by
find_order_index(order) returns number_of_orders - 1 under the
post-increment count, provided the id was not already present in the
slab; find_order_index scans the dense prefix with the lowest matching
index winning, and on the resulting account it fails with OrderNotFound
for any id absent from every slot. -/
theorem addThenFind (a : UserAccount) (order : Nat) (a1 : UserAccount)
    (horder : order < 2 ^ 128)
    (hadd : a.add_order order = .ok a1)
    (hfresh : ∀ k, k < a.header.number_of_orders → a.slotVal k ≠ order) :
    a1.header.number_of_orders = a.header.number_of_orders + 1 ∧
    a1.find_order_index order = .ok (a1.header.number_of_orders - 1) ∧
    (∀ y, (∀ k, k < a1.header.number_of_orders → a1.slotVal k ≠ y) →
      a1.find_order_index y = .err .OrderNotFound) := by
  simp only [UserAccount.add_order] at hadd
  split at hadd
  case isFalse => cases hadd
  case isTrue hlen =>
    cases hadd
    have hwl : (writeBytes a.data
        (UserAccountHeader.LEN + a.header.number_of_orders * 16)
        (leBytes 16 order)).length = a.data.length :=
      writeBytes_length (by rw [leBytes_length]; exact hlen)
    have h2 : (256 : Nat) ^ 16 = 2 ^ 128 := by norm_num
    refine ⟨rfl, ?_, ?_⟩
    · show findFrom (writeBytes a.data
          (UserAccountHeader.LEN + a.header.number_of_orders * 16)
          (leBytes 16 order)) order 0 (a.header.number_of_orders + 1) =
        .ok (a.header.number_of_orders + 1 - 1)
      rw [show a.header.number_of_orders + 1 - 1 =
        0 + a.header.number_of_orders by omega]
      apply findFrom_found
      · omega
      · intro t ht
        rw [hwl, Nat.zero_add]
        omega
      · rw [Nat.zero_add, readLe_writeBytes_self hlen, h2]
        exact Nat.mod_eq_of_lt horder
      · intro t ht
        rw [Nat.zero_add,
          readLe_writeBytes_disjoint (by rw [leBytes_length]; exact hlen)
            (by rw [leBytes_length]; omega)]
        exact hfresh t ht
    · intro y hy
      show findFrom (writeBytes a.data
          (UserAccountHeader.LEN + a.header.number_of_orders * 16)
          (leBytes 16 order)) y 0 (a.header.number_of_orders + 1) =
        .err .OrderNotFound
      apply findFrom_not_found
      · intro t ht
        rw [hwl, Nat.zero_add]
        omega
      · intro t ht
        rw [Nat.zero_add]
        exact hy t ht

/-- C7 witness: the amended theorem applied to the empty account wEmpty
and the fresh order id 5, which lands in slot 0 = 1 - 1. -/
theorem addThenFindWitness :
    (5 : Nat) < 2 ^ 128 ∧
    wEmpty.add_order 5 = .ok wEmptyAdd ∧
    (wEmptyAdd.header.number_of_orders = wEmpty.header.number_of_orders + 1 ∧
      wEmptyAdd.find_order_index 5 =
        .ok (wEmptyAdd.header.number_of_orders - 1)) :=
  ⟨by decide, by decide,
    have h := addThenFind wEmpty 5 wEmptyAdd (by decide) (by decide)
      (by intro k hk; simp [wEmpty] at hk)
    ⟨h.1, h.2.1⟩⟩

/-- C9: add_order and remove_order each, independently of the other and
whenever it succeeds, change only the number_of_orders field of the
header and only the 16 bytes of the touched slot inside the trailing
slab region (slot number_of_orders for add, slot order_index for
remove); every other header field and every other byte of the buffer,
the 109 header bytes included, is unchanged.  A failing call returns
only an error value and mutates nothing in this model, matching the
source where every error path returns before any write. -/
theorem addRemoveFrame (a : UserAccount) (order_index order : Nat) :
    (∀ a1, a.add_order order = .ok a1 →
      headerFrame a.header a1.header ∧
      ∀ m, m < UserAccountHeader.LEN + a.header.number_of_orders * 16 ∨
          UserAccountHeader.LEN + a.header.number_of_orders * 16 + 16 ≤ m →
        a1.data.getD m 0 = a.data.getD m 0) ∧
    (∀ a2, a.remove_order order_index = .ok a2 →
      headerFrame a.header a2.header ∧
      ∀ m, m < UserAccountHeader.LEN + order_index * 16 ∨
          UserAccountHeader.LEN + order_index * 16 + 16 ≤ m →
        a2.data.getD m 0 = a.data.getD m 0) := by
  constructor
  · intro a1 hadd
    simp only [UserAccount.add_order] at hadd
    split at hadd
    case isFalse => cases hadd
    case isTrue hlen =>
      cases hadd
      refine ⟨⟨rfl, rfl, rfl, rfl, rfl, rfl, rfl, rfl⟩, ?_⟩
      intro m hm
      show (writeBytes a.data
        (UserAccountHeader.LEN + a.header.number_of_orders * 16)
        (leBytes 16 order)).getD m 0 = a.data.getD m 0
      rw [writeBytes_getD m (by rw [leBytes_length]; exact hlen),
        leBytes_length, if_neg (by omega)]
  · intro a2 hrem
    simp only [UserAccount.remove_order] at hrem
    split at hrem
    case isTrue => cases hrem
    case isFalse hge =>
      split at hrem
      case isFalse hnl =>
        cases hrem
        exact ⟨⟨rfl, rfl, rfl, rfl, rfl, rfl, rfl, rfl⟩, fun m _ => rfl⟩
      case isTrue hne =>
        split at hrem
        case h_2 => cases hrem
        case h_3 => cases hrem
        case h_1 last heq =>
          split at hrem
          case isFalse => cases hrem
          case isTrue hlen2 =>
            cases hrem
            refine ⟨⟨rfl, rfl, rfl, rfl, rfl, rfl, rfl, rfl⟩, ?_⟩
            intro m hm
            show (writeBytes a.data
              (UserAccountHeader.LEN + order_index * 16)
              (leBytes 16 last)).getD m 0 = a.data.getD m 0
            rw [writeBytes_getD m (by rw [leBytes_length]; exact hlen2),
              leBytes_length, if_neg (by omega)]

/-- C9 witness: each conjunct exercised on its own account, so neither
frame depends on the other operation succeeding there: the add frame on
the empty account wEmpty (where remove_order always fails at count 0),
and the remove frame on the exactly full account wAcct (where add_order
fails with UserAccountFull); a byte outside each touched slot is checked
unchanged. -/
theorem addRemoveFrameWitness :
    wEmpty.add_order 5 = .ok wEmptyAdd ∧
    wAcct.remove_order 0 = .ok wAcctRem ∧
    headerFrame wEmpty.header wEmptyAdd.header ∧
    headerFrame wAcct.header wAcctRem.header ∧
    wEmptyAdd.data.getD 0 0 = wEmpty.data.getD 0 0 ∧
    wAcctRem.data.getD 130 0 = wAcct.data.getD 130 0 :=
  ⟨by decide, by decide,
    ((addRemoveFrame wEmpty 0 5).1 wEmptyAdd (by decide)).1,
    ((addRemoveFrame wAcct 0 0).2 wAcctRem (by decide)).1,
    ((addRemoveFrame wEmpty 0 5).1 wEmptyAdd (by decide)).2 0
      (Or.inl (by decide)),
    ((addRemoveFrame wAcct 0 0).2 wAcctRem (by decide)).2 130
      (Or.inr (by decide))⟩

/-- C6: for every syntactically valid header value (each field within its
machine-integer range), serializing yields exactly LEN = 109 bytes and
unpack of those bytes returns a header equal in all fields to the
original; unpack of an input whose length differs from 109 fails with
InvalidAccountData, and unpack of any input whose borsh decoding fails
(truncated data or invalid tag byte) also fails with InvalidAccountData
rather than proceeding with partial data. -/
theorem headerPackUnpack :
    (∀ h : UserAccountHeader, validHeader h →
      (UserAccountHeader.serializeBytes h).length = UserAccountHeader.LEN ∧
      UserAccountHeader.unpack (UserAccountHeader.serializeBytes h) = .ok h) ∧
    (∀ src : List Nat, src.length ≠ UserAccountHeader.LEN →
      UserAccountHeader.unpack src = .err .InvalidAccountData) ∧
    (∀ src : List Nat, UserAccountHeader.deserializeBytes src = none →
      UserAccountHeader.unpack src = .err .InvalidAccountData) := by
  refine ⟨?_, ?_, ?_⟩
  · intro h hv
    obtain ⟨hma, how, h1, h2, h3, h4, h5, h6⟩ := hv
    have hma' : h.market < 256 ^ 32 := by
      have : (2 : Nat) ^ 256 = 256 ^ 32 := by norm_num
      omega
    have how' : h.owner < 256 ^ 32 := by
      have : (2 : Nat) ^ 256 = 256 ^ 32 := by norm_num
      omega
    have h1' : h.base_token_free < 256 ^ 8 := by
      have : (2 : Nat) ^ 64 = 256 ^ 8 := by norm_num
      omega
    have h2' : h.base_token_locked < 256 ^ 8 := by
      have : (2 : Nat) ^ 64 = 256 ^ 8 := by norm_num
      omega
    have h3' : h.quote_token_free < 256 ^ 8 := by
      have : (2 : Nat) ^ 64 = 256 ^ 8 := by norm_num
      omega
    have h4' : h.quote_token_locked < 256 ^ 8 := by
      have : (2 : Nat) ^ 64 = 256 ^ 8 := by norm_num
      omega
    have h5' : h.accumulated_rebates < 256 ^ 8 := by
      have : (2 : Nat) ^ 64 = 256 ^ 8 := by norm_num
      omega
    have h6' : h.number_of_orders < 256 ^ 4 := by
      have : (2 : Nat) ^ 32 = 256 ^ 4 := by norm_num
      omega
    have hlen : (UserAccountHeader.serializeBytes h).length =
        UserAccountHeader.LEN := by
      simp [UserAccountHeader.serializeBytes, UserAccountHeader.LEN,
        leBytes_length]
    refine ⟨hlen, ?_⟩
    have hdes : UserAccountHeader.deserializeBytes
        (UserAccountHeader.serializeBytes h) = some h := by
      simp only [UserAccountHeader.serializeBytes,
        UserAccountHeader.deserializeBytes, tagOfByte_tagByte,
        readN_leBytes hma', readN_leBytes how', readN_leBytes h1',
        readN_leBytes h2', readN_leBytes h3', readN_leBytes h4',
        readN_leBytes h5', readN_leBytes_nil h6', Option.bind_eq_bind,
        Option.some_bind, Option.pure_def]
    unfold UserAccountHeader.unpack
    rw [if_pos hlen, hdes]
  · intro src hne
    unfold UserAccountHeader.unpack
    rw [if_neg hne]
  · intro src hdz
    unfold UserAccountHeader.unpack
    by_cases hl : src.length = UserAccountHeader.LEN
    · rw [if_pos hl, hdz]
    · rw [if_neg hl]

/-- C6 witness: the theorem applied to the concrete header of wAcct and to
the empty byte list as a wrong-length input. -/
theorem headerPackUnpackWitness :
    validHeader wAcct.header ∧
    ((UserAccountHeader.serializeBytes wAcct.header).length =
        UserAccountHeader.LEN ∧
      UserAccountHeader.unpack
        (UserAccountHeader.serializeBytes wAcct.header) = .ok wAcct.header) ∧
    ([] : List Nat).length ≠ UserAccountHeader.LEN ∧
    UserAccountHeader.unpack [] = .err .InvalidAccountData :=
  ⟨by decide, headerPackUnpack.1 wAcct.header (by decide),
    by decide, headerPackUnpack.2.1 [] (by decide)⟩

end DexV4
